import Mathlib

/-!
Verification of the librato statsd backend (src/backends/librato.js).

The JavaScript source is shallowly embedded below: the module-level state
becomes explicit record types, JavaScript objects used as string-keyed maps
become association lists (key iteration in insertion order, as in the
source runtime), numbers become Int, and the network layer is modelled as
an oracle assigning a response to each delivery attempt.
-/

set_option autoImplicit false

namespace Librato

abbrev Name := String

/-! ## NameSanitizer

Embeds sanitize_name: name.replace of the regex class [^-.:_\w]+ (one
occurrence, not global) by an underscore, then substr(0,255).  The JS word
class \w is [A-Za-z0-9_], so the allowed set is [A-Za-z0-9_.:-]. -/

/-- A character inside the allowed class [-.:_\w] of the sanitize regex. -/
def isAllowedChar (c : Char) : Bool :=
  c = '-' || c = '.' || c = ':' || c = '_' || c.isAlphanum

/-- One non-global replace of the regex [^-.:_\w]+ by an underscore: the
first maximal run of disallowed characters collapses to one underscore and
everything after it is kept verbatim. -/
def replaceFirstBadRun : List Char → List Char
  | [] => []
  | c :: cs =>
    if isAllowedChar c then c :: replaceFirstBadRun cs
    else '_' :: (c :: cs).dropWhile (fun x => !isAllowedChar x)

/-- Embedding of sanitize_name. -/
def sanitize_name (name : String) : String :=
  String.mk ((replaceFirstBadRun name.data).take 255)

/-- One entry of libratoCounters: {value, lastUpdate}. -/
structure LedgerEntry where
  value : Int
  lastUpdate : Nat
  deriving Repr, DecidableEq

abbrev Ledger := List (Name × LedgerEntry)

/-- Property lookup libratoCounters[key]. -/
def ledgerLookup (led : Ledger) (k : Name) : Option LedgerEntry :=
  match led with
  | [] => none
  | (k', e) :: rest => if k' = k then some e else ledgerLookup rest k

/-- Property write libratoCounters[key] = e: update in place, or append a
new key (JS objects keep insertion order). -/
def ledgerSet (led : Ledger) (k : Name) (e : LedgerEntry) : Ledger :=
  match led with
  | [] => [(k, e)]
  | (k', e') :: rest =>
    if k' = k then (k', e) :: rest else (k', e') :: ledgerSet rest k e

/-- The accumulated value held for a key, or 0 when the key is absent
(the creation branch stores exactly the first delta, i.e. 0 + delta). -/
def ledgerValue (led : Ledger) (k : Name) : Int :=
  ((ledgerLookup led k).map LedgerEntry.value).getD 0

/-- The prune loop at the end of flush_stats: every entry whose lastUpdate
differs from the current ts is deleted. -/
def pruneLedger (ts : Nat) (led : Ledger) : Ledger :=
  led.filter (fun e => e.2.lastUpdate == ts)

/-! ## Payload records -/

/-- An element of the gauges array: either a plain {name, value} gauge or
a timer summary {name, count, sum, sum_squares, min, max}. -/
inductive GaugeRecord where
  | plain (name : Name) (value : Int)
  | timer (name : Name) (count : Nat) (sum sumSquares mn mx : Int)
  deriving Repr, DecidableEq

/-- An element of the counters array: {name, value}. -/
structure CounterRecord where
  name : Name
  value : Int
  deriving Repr, DecidableEq

/-- The metrics argument of flush_stats: the statsd snapshot of counters,
timers and gauges, each a string-keyed object. -/
structure Snapshot where
  counters : List (Name × Int)
  timers : List (Name × List Int)
  gauges : List (Name × Int)
  deriving Repr, DecidableEq

/-! ## flush_stats -/

/-- The first loop of flush_stats, over metrics.counters.  Legacy mode
pushes a plain gauge holding the raw delta; otherwise the ledger entry is
created with the delta or incremented by it, lastUpdate is stamped with
ts, and a counter record carrying the updated accumulated value is
pushed.  Returns (gauges pushed, counters pushed, updated ledger). -/
def countersLoop (legacy : Bool) (ts : Nat) :
    List (Name × Int) → Ledger → List GaugeRecord × List CounterRecord × Ledger
  | [], led => ([], [], led)
  | (k, d) :: rest, led =>
    if legacy then
      let r := countersLoop legacy ts rest led
      (GaugeRecord.plain (sanitize_name k) d :: r.1, r.2.1, r.2.2)
    else
      let e : LedgerEntry :=
        match ledgerLookup led k with
        | none => ⟨d, ts⟩
        | some old => ⟨old.value + d, ts⟩
      let r := countersLoop legacy ts rest (ledgerSet led k e)
      (r.1, CounterRecord.mk (sanitize_name k) e.value :: r.2.1, r.2.2)

/-- The accumulator of the inner loop over one timer key: min and max are
null-initialised, sum and sumOfSquares start at 0. -/
structure TimerAcc where
  mn : Option Int
  mx : Option Int
  sum : Int
  sumSquares : Int
  deriving Repr, DecidableEq

/-- One iteration of the loop over metrics.timers[key]. -/
def timerStep (acc : TimerAcc) (val : Int) : TimerAcc :=
  { mn := match acc.mn with
          | none => some val
          | some m => if val < m then some val else some m
    mx := match acc.mx with
          | none => some val
          | some m => if val > m then some val else some m
    sum := acc.sum + val
    sumSquares := acc.sumSquares + val * val }

/-- The body of the timers loop for one key: a key with an empty sample
list is skipped (continue), otherwise the summary gauge is built. -/
def timerRecord (k : Name) (samples : List Int) : Option GaugeRecord :=
  if samples.length == 0 then none
  else
    let acc := samples.foldl timerStep ⟨none, none, 0, 0⟩
    some (GaugeRecord.timer (sanitize_name k) samples.length
      acc.sum acc.sumSquares (acc.mn.getD 0) (acc.mx.getD 0))

/-- The second loop of flush_stats, over metrics.timers. -/
def timersLoop : List (Name × List Int) → List GaugeRecord
  | [] => []
  | (k, samples) :: rest =>
    match timerRecord k samples with
    | none => timersLoop rest
    | some g => g :: timersLoop rest

/-- The third loop of flush_stats, over metrics.gauges. -/
def gaugesLoop (gs : List (Name × Int)) : List GaugeRecord :=
  gs.map (fun p => GaugeRecord.plain (sanitize_name p.1) p.2)

/-- Result of one flush_stats call: the two payload arrays handed to
post_metrics and the libratoCounters state after pruning. -/
structure FlushOut where
  gauges : List GaugeRecord
  counters : List CounterRecord
  ledger : Ledger
  deriving Repr, DecidableEq

/-- Embedding of flush_stats: the three loops fill the gauges and
counters arrays, numStats = gauges.length + counters.length is then
published as one more counter (legacy: as one more plain gauge), and
finally every ledger entry not refreshed at this ts is pruned. -/
def flush_stats (legacy : Bool) (ts : Nat) (m : Snapshot) (led : Ledger) :
    FlushOut :=
  let r := countersLoop legacy ts m.counters led
  let led1 := r.2.2
  let gauges := r.1 ++ timersLoop m.timers ++ gaugesLoop m.gauges
  let counters := r.2.1
  let numStats : Int := (gauges.length : Int) + (counters.length : Int)
  if legacy then
    { gauges := gauges ++ [GaugeRecord.plain "numStats" numStats]
      counters := counters
      ledger := pruneLedger ts led1 }
  else
    let e : LedgerEntry :=
      match ledgerLookup led1 "numStats" with
      | none => ⟨numStats, ts⟩
      | some old => ⟨old.value + numStats, ts⟩
    let led2 := ledgerSet led1 "numStats" e
    { gauges := gauges
      counters := counters ++ [CounterRecord.mk "numStats" e.value]
      ledger := pruneLedger ts led2 }

/-- Iterated flushes: each cycle consumes the ledger the previous one
left behind, as consecutive host flush invocations do. -/
def runFlushes (legacy : Bool) (led : Ledger) :
    List (Nat × Snapshot) → List FlushOut
  | [] => []
  | (ts, m) :: rest =>
    let out := flush_stats legacy ts m led
    out :: runFlushes legacy out.ledger rest

/-- The counters array published at cycle i of a run (empty when i is out
of range). -/
def countersAt (outs : List FlushOut) (i : Nat) : List CounterRecord :=
  ((outs[i]?).map FlushOut.counters).getD []

/-! ## Ledger lemmas -/

/-- The per-cycle numStats contribution expressed over the snapshot: one
record per counter key, one per timer key with at least one sample, one
per gauge key. -/
def snapshotRecordCount (m : Snapshot) : Int :=
  (m.counters.length : Int)
    + ((m.timers.filter (fun p => !p.2.isEmpty)).length : Int)
    + (m.gauges.length : Int)

/-- How long to wait before retrying a failed post, in seconds. -/
def retryDelay : Nat := 5

/-- What one request attempt observes: an HTTP status (hasData records
whether a body data event fires — the 4xx/5xx branches run inside the
data handler) or a connection-level error event. -/
inductive Response where
  | status (code : Nat) (hasData : Bool)
  | transportError
  deriving Repr, DecidableEq

/-- Observable actions of post_payload. -/
inductive DeliveryEvent where
  | attempt
  | scheduleRetry (delayMs : Nat)
  | logCrit
  | logDebug
  deriving Repr, DecidableEq

/-- Whether the handlers of one attempt schedule a retry: only on a 5xx
response carrying data or on a transport error, and only when this
attempt has its retry flag set. -/
def schedules_retry (r : Response) (retry : Bool) : Bool :=
  retry && (match r with
    | .status code hasData => (code / 100 == 5) && hasData
    | .transportError => true)

/-- The log and timer actions of one attempt of post_payload, given its
response and retry flag (the recursive retried attempt excluded). -/
def handle_response (debug : Bool) (r : Response) (retry : Bool) :
    List DeliveryEvent :=
  match r with
  | .status code hasData =>
    if code / 100 == 5 && hasData then
      if retry then
        (if debug then [.logDebug] else [])
          ++ [.scheduleRetry (retryDelay * 1000)]
      else [.logCrit]
    else if code / 100 == 4 && hasData && debug then [.logDebug]
    else []
  | .transportError =>
    if retry then [.scheduleRetry (retryDelay * 1000)] else [.logCrit]

/-- The introspection state libratoStats. -/
structure PostState where
  lastFlush : Option Nat
  deriving Repr, DecidableEq

/-- Embedding of post_payload.  The i-th call consumes responses i; now
is the wall clock stamped into libratoStats.last_flush, which the source
assigns on every call right after writing the request, before any
response handler can run; fuel bounds the recursion depth (any fuel of at
least 1 gives the complete behaviour, because a scheduled retry always
calls back with retry = false). -/
def post_payload_run (debug : Bool) (now : Nat) (responses : Nat → Response) :
    Nat → Nat → Bool → PostState → List DeliveryEvent × PostState
  | 0, _, _, st => ([], st)
  | fuel + 1, i, retry, st =>
    let st1 : PostState := { st with lastFlush := some now }
    let r := responses i
    let sub := if schedules_retry r retry then
        post_payload_run debug now responses fuel (i + 1) false st1
      else ([], st1)
    (.attempt :: (handle_response debug r retry ++ sub.1), sub.2)

/-- Embedding of the delivery step of post_metrics: it hands the payload
to post_payload with the retry argument false. -/
def post_metrics_send (debug : Bool) (now : Nat) (responses : Nat → Response)
    (fuel : Nat) (st : PostState) : List DeliveryEvent × PostState :=
  post_payload_run debug now responses fuel 0 false st

/-! ## post_metrics endpoint resolution -/

/-- The JS or-default idiom v || dflt on strings: null/undefined and the
empty string both fall back. -/
def jsStringOr (v : Option String) (dflt : String) : String :=
  match v with
  | some s => if s = "" then dflt else s
  | none => dflt

/-- The fields of a node url.parse result used by post_metrics. -/
structure ParsedUrl where
  protocol : Option String
  hostname : String
  port : Option Nat
  deriving Repr, DecidableEq

/-- Splits a character list at the first occurrence of sep, when one
exists: the part before and the part after the separator. -/
def splitOnceSub (sep : List Char) : List Char → Option (List Char × List Char)
  | [] => if sep.isEmpty then some ([], []) else none
  | c :: rest =>
    if sep.isPrefixOf (c :: rest) then some ([], (c :: rest).drop sep.length)
    else
      match splitOnceSub sep rest with
      | none => none
      | some (a, b) => some (c :: a, b)

/-- A run of decimal digits as a number, for the port field. -/
def parseDigits (cs : List Char) : Option Nat :=
  match cs with
  | [] => none
  | _ =>
    if cs.all Char.isDigit then
      some (cs.foldl (fun n c => n * 10 + (c.toNat - 48)) 0)
    else none

/-- Model of url.parse for scheme://host[:port][/path] endpoints. -/
def url_parse (s : String) : ParsedUrl :=
  match splitOnceSub "://".data s.data with
  | none => ⟨none, String.mk (s.data.takeWhile (fun c => c ≠ '/')), none⟩
  | some (scheme, rest) =>
    let hostport := rest.takeWhile (fun c => c ≠ '/')
    match splitOnceSub [':'] hostport with
    | none => ⟨some (String.mk scheme ++ ":"), String.mk hostport, none⟩
    | some (h, p) => ⟨some (String.mk scheme ++ ":"), String.mk h, parseDigits p⟩

/-- Whether needle occurs as a contiguous substring of hay: the
protocol.match(/https/) test of the source. -/
def hasSubstr (hay needle : List Char) : Bool :=
  match hay with
  | [] => needle.isEmpty
  | c :: rest => needle.isPrefixOf (c :: rest) || hasSubstr rest needle

inductive Proto where
  | http
  | https
  deriving Repr, DecidableEq

/-- The request options of post_metrics. -/
structure RequestOptions where
  host : String
  port : Nat
  path : String
  method : String
  deriving Repr, DecidableEq

/-- The request options and transport post_metrics derives from the api
module variable: default endpoint when unset, port defaulting to 443
regardless of scheme, plaintext http unless the protocol string contains
https. -/
def post_metrics_target (api : Option String) : RequestOptions × Proto :=
  let parsed_host := url_parse (jsStringOr api "https://metrics-api.librato.com")
  ({ host := parsed_host.hostname
     port := parsed_host.port.getD 443
     path := "/v1/metrics"
     method := "POST" },
   if hasSubstr (jsStringOr parsed_host.protocol "http:").data "https".data
   then Proto.https else Proto.http)

/-! ## C1: the retry state machine -/

/-- JS truthiness of a possibly-absent string: undefined and the empty
string are falsy. -/
def jsTruthyStr (v : Option String) : Bool :=
  match v with
  | some s => !(s = "")
  | none => false

/-- The standard base64 alphabet. -/
def base64Chars : List Char :=
  "ABCDEFGHIJKLMNOPQRSTUVWXYZabcdefghijklmnopqrstuvwxyz0123456789+/".data

def base64Digit (n : Nat) : Char := base64Chars.getD n '='

/-- base64 of a byte list, three bytes to four output characters, with
trailing = padding. -/
def base64Go : List Nat → List Char
  | [] => []
  | [b1] => [base64Digit (b1 / 4), base64Digit (b1 % 4 * 16), '=', '=']
  | [b1, b2] =>
    [base64Digit (b1 / 4), base64Digit (b1 % 4 * 16 + b2 / 16),
     base64Digit (b2 % 16 * 4), '=']
  | b1 :: b2 :: b3 :: rest =>
    base64Digit (b1 / 4) :: base64Digit (b1 % 4 * 16 + b2 / 16)
      :: base64Digit (b2 % 16 * 4 + b3 / 64) :: base64Digit (b3 % 64)
      :: base64Go rest

/-- Embedding of build_basic_auth:
'Basic ' + base64 of email:token. -/
def build_basic_auth (email token : String) : String :=
  "Basic " ++ String.mk (base64Go
    ((email ++ ":" ++ token).toUTF8.toList.map UInt8.toNat))

/-- The nested provider-specific config block config.librato. -/
structure LibratoBlock where
  api : Option String
  email : Option String
  token : Option String
  source : Option String
  legacyCounters : Option Bool
  deriving Repr, DecidableEq

/-- The configuration hash handed to init: the nested block and the
deprecated flat keys. -/
structure Config where
  debug : Bool
  librato : Option LibratoBlock
  libratoHost : Option String
  libratoUser : Option String
  libratoApiKey : Option String
  libratoSource : Option String
  flushInterval : Option Nat
  deriving Repr, DecidableEq

/-- The module-level variables init_librato assigns. -/
structure ModuleState where
  debug : Bool
  api : Option String
  email : Option String
  token : Option String
  sourceName : Option String
  legacyCounters : Bool
  flushInterval : Option Nat
  basicAuthHeader : Option String
  deriving Repr, DecidableEq

/-- The credential fields after resolution: the nested config.librato
block takes precedence wholesale over the deprecated flat keys. -/
def resolvedEmail (config : Config) : Option String :=
  match config.librato with
  | some b => b.email
  | none => config.libratoUser

def resolvedToken (config : Config) : Option String :=
  match config.librato with
  | some b => b.token
  | none => config.libratoApiKey

/-- Embedding of init_librato: assign debug, resolve the provider
settings (nested block preferred), and bail out with false — leaving
flushInterval and basicAuthHeader untouched — when the resolved email or
token is missing or empty; otherwise record both and return true. -/
def init_librato (startup_time : Nat) (config : Config) (st : ModuleState) :
    Bool × ModuleState :=
  let st1 := { st with debug := config.debug }
  let st2 :=
    match config.librato with
    | some b =>
      { st1 with
        api := b.api
        email := b.email
        token := b.token
        sourceName := b.source
        legacyCounters := b.legacyCounters.getD false }
    | none =>
      { st1 with
        api := config.libratoHost
        email := config.libratoUser
        token := config.libratoApiKey
        sourceName := config.libratoSource }
  if !jsTruthyStr st2.email || !jsTruthyStr st2.token then
    (false, st2)
  else
    (true, { st2 with
      flushInterval := config.flushInterval
      basicAuthHeader := some (build_basic_auth (st2.email.getD "")
        (st2.token.getD "")) })

theorem replaceFirstBadRun_all_allowed (l : List Char)
    (h : l.all isAllowedChar) : replaceFirstBadRun l = l := by
  induction l with
  | nil => rfl
  | cons c cs ih =>
    simp only [List.all_cons, Bool.and_eq_true] at h
    simp [replaceFirstBadRun, h.1, ih h.2]

theorem replaceFirstBadRun_append_allowed (a l : List Char)
    (h : a.all isAllowedChar) :
    replaceFirstBadRun (a ++ l) = a ++ replaceFirstBadRun l := by
  induction a with
  | nil => rfl
  | cons c cs ih =>
    simp only [List.all_cons, Bool.and_eq_true] at h
    simp [replaceFirstBadRun, h.1, ih h.2]

theorem dropWhile_append_all (p : Char → Bool) (b c : List Char)
    (hb : b.all p) : (b ++ c).dropWhile p = c.dropWhile p := by
  induction b with
  | nil => rfl
  | cons x xs ih =>
    simp only [List.all_cons, Bool.and_eq_true] at hb
    simp [List.dropWhile, hb.1, ih hb.2]

theorem dropWhile_head_not (p : Char → Bool) (c : List Char)
    (hc : ∀ x, c.head? = some x → p x = false) : c.dropWhile p = c := by
  cases c with
  | nil => rfl
  | cons x xs => simp [List.dropWhile, hc x rfl]

/-- C7: sanitize replaces only the first contiguous run of characters
outside [A-Za-z0-9_.:-] by a single underscore, passes every later
character (hence every later invalid run) through unchanged, and the
result never exceeds 255 characters. -/
theorem sanitize_first_run_only :
    (∀ s : String, (sanitize_name s).length ≤ 255) ∧
    (∀ a b c : List Char,
      a.all isAllowedChar →
      b ≠ [] →
      b.all (fun x => !isAllowedChar x) →
      (∀ x, c.head? = some x → isAllowedChar x) →
      sanitize_name (String.mk (a ++ b ++ c)) =
        String.mk ((a ++ '_' :: c).take 255)) := by
  constructor
  · intro s
    show ((replaceFirstBadRun s.data).take 255).length ≤ 255
    simp [List.length_take]
  · intro a b c ha hb hbbad hc
    show String.mk ((replaceFirstBadRun ((a ++ b ++ c) : List Char)).take 255) = _
    rw [List.append_assoc, replaceFirstBadRun_append_allowed a (b ++ c) ha]
    cases b with
    | nil => exact absurd rfl hb
    | cons x xs =>
      simp only [List.all_cons, Bool.and_eq_true, Bool.not_eq_true'] at hbbad
      have hx : isAllowedChar x = false := hbbad.1
      show String.mk ((a ++ replaceFirstBadRun ((x :: xs) ++ c)).take 255) = _
      have hstep : replaceFirstBadRun ((x :: xs) ++ c)
          = '_' :: ((x :: xs) ++ c).dropWhile (fun y => !isAllowedChar y) := by
        simp [replaceFirstBadRun, hx]
      rw [hstep,
        dropWhile_append_all _ (x :: xs) c
          (by simp only [List.all_cons, Bool.and_eq_true, Bool.not_eq_true']
              exact ⟨hx, hbbad.2⟩),
        dropWhile_head_not _ c (by intro y hy; simpa [hy] using hc y hy)]

/-- C7 witness: the spec example, "my.metric" ++ "!" ++ "name". -/
theorem sanitize_first_run_only_witness :
    sanitize_name (String.mk ("my.metric".data ++ "!".data ++ "name".data)) =
      String.mk (("my.metric".data ++ '_' :: "name".data).take 255) :=
  sanitize_first_run_only.2 "my.metric".data "!".data "name".data
    (by decide) (by decide) (by decide) (by decide)

/-! ## CounterLedger state

libratoCounters is a JS object mapping counter name to
{value, lastUpdate}; embedded as an association list in insertion order,
which is how a JS object iterates its string keys. -/

theorem ledgerLookup_set_self (led : Ledger) (k : Name) (e : LedgerEntry) :
    ledgerLookup (ledgerSet led k e) k = some e := by
  induction led with
  | nil => simp [ledgerSet, ledgerLookup]
  | cons p rest ih =>
    by_cases h : p.1 = k
    · simp [ledgerSet, ledgerLookup, h]
    · simp [ledgerSet, ledgerLookup, h, ih]

theorem ledgerLookup_set_ne (led : Ledger) (k k' : Name) (e : LedgerEntry)
    (h : k' ≠ k) : ledgerLookup (ledgerSet led k' e) k = ledgerLookup led k := by
  induction led with
  | nil => simp [ledgerSet, ledgerLookup, h]
  | cons p rest ih =>
    by_cases hp : p.1 = k'
    · have hpk : ¬ p.1 = k := by rw [hp]; exact h
      simp [ledgerSet, ledgerLookup, hp, hpk, h]
    · by_cases hk : p.1 = k <;>
        simp [ledgerSet, ledgerLookup, hp, hk, Ne.symm h, ih]

theorem ledgerValue_set_ne (led : Ledger) (k k' : Name) (e : LedgerEntry)
    (h : k' ≠ k) : ledgerValue (ledgerSet led k' e) k = ledgerValue led k := by
  simp [ledgerValue, ledgerLookup_set_ne led k k' e h]

theorem mem_keys_ledgerSet (led : Ledger) (k x : Name) (e : LedgerEntry)
    (hx : x ∈ (ledgerSet led k e).map Prod.fst) :
    x ∈ led.map Prod.fst ∨ x = k := by
  induction led with
  | nil => simpa [ledgerSet] using hx
  | cons p rest ih =>
    by_cases hp : p.1 = k
    · simp only [ledgerSet, hp, if_pos] at hx
      simp only [List.map_cons, List.mem_cons] at hx ⊢
      rcases hx with h | h
      · exact Or.inr h
      · exact Or.inl (Or.inr h)
    · simp only [ledgerSet, hp, if_neg, not_false_iff] at hx
      simp only [List.map_cons, List.mem_cons] at hx ⊢
      rcases hx with h | h
      · exact Or.inl (Or.inl h)
      · rcases ih h with h' | h'
        · exact Or.inl (Or.inr h')
        · exact Or.inr h'

theorem nodupKeys_ledgerSet (led : Ledger) (k : Name) (e : LedgerEntry)
    (h : (led.map Prod.fst).Nodup) :
    ((ledgerSet led k e).map Prod.fst).Nodup := by
  induction led with
  | nil => simp [ledgerSet]
  | cons p rest ih =>
    simp only [List.map_cons, List.nodup_cons] at h
    by_cases hp : p.1 = k
    · simp only [ledgerSet, hp, if_pos, List.map_cons, List.nodup_cons]
      exact hp ▸ h
    · simp only [ledgerSet, hp, if_neg, not_false_iff, List.map_cons,
        List.nodup_cons]
      refine ⟨fun hmem => ?_, ih h.2⟩
      rcases mem_keys_ledgerSet rest k p.1 e hmem with h' | h'
      · exact h.1 h'
      · exact hp h'

theorem nodupKeys_prune (ts : Nat) (led : Ledger)
    (h : (led.map Prod.fst).Nodup) :
    ((pruneLedger ts led).map Prod.fst).Nodup := by
  induction led with
  | nil => simp [pruneLedger]
  | cons p rest ih =>
    simp only [List.map_cons, List.nodup_cons] at h
    by_cases hp : (p.2.lastUpdate == ts) = true
    · simp only [pruneLedger, List.filter_cons, hp, if_pos, List.map_cons,
        List.nodup_cons]
      refine ⟨fun hmem => ?_, ih h.2⟩
      have : p.1 ∈ rest.map Prod.fst := by
        rcases List.mem_map.mp hmem with ⟨q, hq, hq1⟩
        exact List.mem_map.mpr ⟨q, (List.mem_filter.mp hq).1, hq1⟩
      exact h.1 this
    · simpa [pruneLedger, List.filter_cons, hp] using ih h.2

theorem ledgerLookup_prune_of_eq (ts : Nat) (led : Ledger) (k : Name)
    (e : LedgerEntry) (hl : ledgerLookup led k = some e)
    (hts : e.lastUpdate = ts) :
    ledgerLookup (pruneLedger ts led) k = some e := by
  induction led with
  | nil => simp [ledgerLookup] at hl
  | cons p rest ih =>
    by_cases hp : p.1 = k
    · simp only [ledgerLookup, hp, if_pos, Option.some.injEq] at hl
      subst hl
      simp [pruneLedger, List.filter_cons, hts, ledgerLookup, hp]
    · simp only [ledgerLookup, hp, if_neg, not_false_iff] at hl
      by_cases hkeep : (p.2.lastUpdate == ts) = true
      · simpa [pruneLedger, List.filter_cons, hkeep, ledgerLookup, hp]
          using ih hl
      · simpa [pruneLedger, List.filter_cons, hkeep] using ih hl

theorem ledgerLookup_prune_of_none (ts : Nat) (led : Ledger) (k : Name)
    (hl : ledgerLookup led k = none) :
    ledgerLookup (pruneLedger ts led) k = none := by
  induction led with
  | nil => simp [pruneLedger, ledgerLookup]
  | cons p rest ih =>
    by_cases hp : p.1 = k
    · simp [ledgerLookup, hp] at hl
    · simp only [ledgerLookup, hp, if_neg, not_false_iff] at hl
      by_cases hkeep : (p.2.lastUpdate == ts) = true
      · simpa [pruneLedger, List.filter_cons, hkeep, ledgerLookup, hp]
          using ih hl
      · simpa [pruneLedger, List.filter_cons, hkeep] using ih hl

theorem ledgerLookup_of_not_mem_keys (led : Ledger) (k : Name)
    (h : k ∉ led.map Prod.fst) : ledgerLookup led k = none := by
  induction led with
  | nil => rfl
  | cons p rest ih =>
    simp only [List.map_cons, List.mem_cons, not_or] at h
    have hpk : ¬ p.1 = k := fun he => h.1 he.symm
    simp [ledgerLookup, hpk, ih h.2]

theorem ledgerLookup_prune_of_stale (ts : Nat) (led : Ledger) (k : Name)
    (e : LedgerEntry) (hnd : (led.map Prod.fst).Nodup)
    (hl : ledgerLookup led k = some e) (hts : e.lastUpdate ≠ ts) :
    ledgerLookup (pruneLedger ts led) k = none := by
  induction led with
  | nil => simp [ledgerLookup] at hl
  | cons p rest ih =>
    simp only [List.map_cons, List.nodup_cons] at hnd
    by_cases hp : p.1 = k
    · simp only [ledgerLookup, hp, if_pos, Option.some.injEq] at hl
      subst hl
      have hrest : ledgerLookup rest k = none :=
        ledgerLookup_of_not_mem_keys rest k (hp ▸ hnd.1)
      have hdrop : (p.2.lastUpdate == ts) = false := by simpa using hts
      simp only [pruneLedger, List.filter_cons, hdrop, Bool.false_eq_true,
        if_neg, not_false_iff]
      exact ledgerLookup_prune_of_none ts rest k hrest
    · simp only [ledgerLookup, hp, if_neg, not_false_iff] at hl
      by_cases hkeep : (p.2.lastUpdate == ts) = true
      · simpa [pruneLedger, List.filter_cons, hkeep, ledgerLookup, hp]
          using ih hnd.2 hl
      · simpa [pruneLedger, List.filter_cons, hkeep] using ih hnd.2 hl

/-! ## countersLoop lemmas -/

theorem countersLoop_legacy_ledger (ts : Nat) (cs : List (Name × Int))
    (led : Ledger) : (countersLoop true ts cs led).2.2 = led := by
  induction cs generalizing led with
  | nil => rfl
  | cons p rest ih =>
    obtain ⟨k', d'⟩ := p
    simpa [countersLoop] using ih led

theorem countersLoop_ledger_not_mem (ts : Nat) (cs : List (Name × Int))
    (led : Ledger) (k : Name) (h : k ∉ cs.map Prod.fst) :
    ledgerLookup (countersLoop false ts cs led).2.2 k = ledgerLookup led k := by
  induction cs generalizing led with
  | nil => rfl
  | cons p rest ih =>
    obtain ⟨k', d'⟩ := p
    simp only [List.map_cons, List.mem_cons, not_or] at h
    simp only [countersLoop, Bool.false_eq_true, if_neg, not_false_iff]
    rw [ih _ h.2, ledgerLookup_set_ne _ _ _ _ (Ne.symm h.1)]

theorem countersLoop_nodupKeys (ts : Nat) (cs : List (Name × Int))
    (led : Ledger) (h : (led.map Prod.fst).Nodup) :
    (((countersLoop false ts cs led).2.2).map Prod.fst).Nodup := by
  induction cs generalizing led with
  | nil => exact h
  | cons p rest ih =>
    obtain ⟨k', d'⟩ := p
    simp only [countersLoop, Bool.false_eq_true, if_neg, not_false_iff]
    exact ih _ (nodupKeys_ledgerSet _ _ _ h)

theorem countersLoop_mem (ts : Nat) (cs : List (Name × Int)) (led : Ledger)
    (k : Name) (d : Int)
    (hnd : (cs.map Prod.fst).Nodup) (hmem : (k, d) ∈ cs) :
    ledgerLookup (countersLoop false ts cs led).2.2 k
        = some ⟨ledgerValue led k + d, ts⟩ ∧
      CounterRecord.mk (sanitize_name k) (ledgerValue led k + d)
        ∈ (countersLoop false ts cs led).2.1 := by
  induction cs generalizing led with
  | nil => cases hmem
  | cons p rest ih =>
    obtain ⟨k', d'⟩ := p
    simp only [List.map_cons, List.nodup_cons] at hnd
    rcases List.mem_cons.mp hmem with heq | hmem'
    · have hk : k = k' := congrArg Prod.fst heq
      have hd : d = d' := congrArg Prod.snd heq
      subst hk; subst hd
      have he : (match ledgerLookup led k with
          | none => (⟨d, ts⟩ : LedgerEntry)
          | some old => ⟨old.value + d, ts⟩) = ⟨ledgerValue led k + d, ts⟩ := by
        cases hl : ledgerLookup led k <;> simp [ledgerValue, hl]
      simp only [countersLoop, Bool.false_eq_true, if_neg, not_false_iff, he]
      constructor
      · rw [countersLoop_ledger_not_mem ts rest _ k hnd.1,
          ledgerLookup_set_self]
      · exact List.mem_cons_self _ _
    · have hkrest : k ∈ rest.map Prod.fst :=
        List.mem_map.mpr ⟨(k, d), hmem', rfl⟩
      have hkk' : k' ≠ k := fun he => hnd.1 (he ▸ hkrest)
      simp only [countersLoop, Bool.false_eq_true, if_neg, not_false_iff]
      have := ih (ledgerSet led k' (match ledgerLookup led k' with
          | none => (⟨d', ts⟩ : LedgerEntry)
          | some old => ⟨old.value + d', ts⟩)) hnd.2 hmem'
      rw [ledgerValue_set_ne _ _ _ _ hkk'] at this
      exact ⟨this.1, List.mem_cons_of_mem _ this.2⟩

/-! ## flush_stats single-cycle lemmas -/

theorem flush_stats_counter_mem (ts : Nat) (m : Snapshot) (led : Ledger)
    (k : Name) (d : Int) (hk : k ≠ "numStats")
    (hnd : (m.counters.map Prod.fst).Nodup) (hmem : (k, d) ∈ m.counters) :
    ledgerLookup (flush_stats false ts m led).ledger k
        = some ⟨ledgerValue led k + d, ts⟩ ∧
      CounterRecord.mk (sanitize_name k) (ledgerValue led k + d)
        ∈ (flush_stats false ts m led).counters := by
  have h := countersLoop_mem ts m.counters led k d hnd hmem
  simp only [flush_stats, Bool.false_eq_true, if_neg, not_false_iff]
  constructor
  · apply ledgerLookup_prune_of_eq
    · rw [ledgerLookup_set_ne _ _ _ _ (Ne.symm hk)]
      exact h.1
    · rfl
  · exact List.mem_append_left _ h.2

theorem flush_stats_absent_stale (ts : Nat) (m : Snapshot) (led : Ledger)
    (k : Name) (e : LedgerEntry)
    (hk : k ≠ "numStats") (hnodup : (led.map Prod.fst).Nodup)
    (habs : k ∉ m.counters.map Prod.fst)
    (hl : ledgerLookup led k = some e) (hts : e.lastUpdate ≠ ts) :
    ledgerLookup (flush_stats false ts m led).ledger k = none := by
  simp only [flush_stats, Bool.false_eq_true, if_neg, not_false_iff]
  apply ledgerLookup_prune_of_stale ts _ k e
  · exact nodupKeys_ledgerSet _ _ _ (countersLoop_nodupKeys _ _ _ hnodup)
  · rw [ledgerLookup_set_ne _ _ _ _ (Ne.symm hk),
      countersLoop_ledger_not_mem _ _ _ _ habs]
    exact hl
  · exact hts

theorem flush_stats_absent_none (ts : Nat) (m : Snapshot) (led : Ledger)
    (k : Name) (hk : k ≠ "numStats") (habs : k ∉ m.counters.map Prod.fst)
    (hl : ledgerLookup led k = none) :
    ledgerLookup (flush_stats false ts m led).ledger k = none := by
  simp only [flush_stats, Bool.false_eq_true, if_neg, not_false_iff]
  apply ledgerLookup_prune_of_none
  rw [ledgerLookup_set_ne _ _ _ _ (Ne.symm hk),
    countersLoop_ledger_not_mem _ _ _ _ habs]
  exact hl

theorem flush_stats_nodupKeys (ts : Nat) (m : Snapshot) (led : Ledger)
    (h : (led.map Prod.fst).Nodup) :
    (((flush_stats false ts m led).ledger).map Prod.fst).Nodup := by
  simp only [flush_stats, Bool.false_eq_true, if_neg, not_false_iff]
  exact nodupKeys_prune _ _
    (nodupKeys_ledgerSet _ _ _ (countersLoop_nodupKeys _ _ _ h))

/-! ## C2: counter accumulation over consecutive cycles -/

theorem runFlushes_accum (k : Name) (hk : k ≠ "numStats") :
    ∀ (cycles : List (Nat × Snapshot)) (ds : List Int) (led : Ledger),
      cycles.length = ds.length →
      (∀ c ∈ cycles, ((c.2.counters.map Prod.fst).Nodup)) →
      (∀ p ∈ cycles.zip ds, (k, p.2) ∈ p.1.2.counters) →
      ∀ i, i < cycles.length →
        CounterRecord.mk (sanitize_name k)
            (ledgerValue led k + ((ds.take (i + 1)).sum)) ∈
          countersAt (runFlushes false led cycles) i := by
  intro cycles
  induction cycles with
  | nil => intro ds led _ _ _ i hi; cases hi
  | cons c rest ih =>
    intro ds led hlen hnd hmem i hi
    obtain ⟨ts, m⟩ := c
    cases ds with
    | nil => cases hlen
    | cons d ds' =>
      have hndm : ((m.counters.map Prod.fst).Nodup) :=
        hnd _ (List.mem_cons_self _ _)
      have hmemd : (k, d) ∈ m.counters := by
        have := hmem ((ts, m), d) (by simp [List.zip_cons_cons])
        exact this
      have hstep := flush_stats_counter_mem ts m led k d hk hndm hmemd
      cases i with
      | zero =>
        simp only [runFlushes, countersAt, List.getElem?_cons_zero,
          Option.map_some', Option.getD_some, List.take, List.sum_cons,
          List.sum_nil, List.take_zero, add_zero]
        exact hstep.2
      | succ j =>
        have hj : j < rest.length := Nat.lt_of_succ_lt_succ hi
        have hval : ledgerValue (flush_stats false ts m led).ledger k
            = ledgerValue led k + d := by
          simp [ledgerValue, hstep.1]
        have := ih ds' (flush_stats false ts m led).ledger
          (Nat.succ_injective hlen)
          (fun c hc => hnd c (List.mem_cons_of_mem _ hc))
          (fun p hp => hmem p (by simp [List.zip_cons_cons]; right; exact hp))
          j hj
        rw [hval] at this
        simp only [runFlushes, countersAt, List.getElem?_cons_succ]
        simp only [countersAt] at this
        have hsum : (List.take (j + 1 + 1) (d :: ds')).sum
            = d + (List.take (j + 1) ds').sum := by
          rw [List.take_succ_cons, List.sum_cons]
        rw [hsum, ← add_assoc]
        exact this

/-- C2: in non-legacy mode, a counter key reporting deltas d1..dn over n
consecutive flush cycles is published at cycle i with value d1 + ... + di:
the ledger entry is created with the first delta and incremented by every
later delta. -/
theorem counter_ledger_accumulates (k : Name)
    (cycles : List (Nat × Snapshot)) (ds : List Int) (led0 : Ledger)
    (hk : k ≠ "numStats")
    (hlen : cycles.length = ds.length)
    (hnd : ∀ c ∈ cycles, ((c.2.counters.map Prod.fst).Nodup))
    (hmem : ∀ p ∈ cycles.zip ds, (k, p.2) ∈ p.1.2.counters)
    (h0 : ledgerLookup led0 k = none) :
    ∀ i, i < cycles.length →
      CounterRecord.mk (sanitize_name k) ((ds.take (i + 1)).sum) ∈
        countersAt (runFlushes false led0 cycles) i := by
  intro i hi
  have := runFlushes_accum k hk cycles ds led0 hlen hnd hmem i hi
  rwa [show ledgerValue led0 k = 0 by simp [ledgerValue, h0], zero_add] at this

/-- C2 witness: key gorets reports 3 then 5; cycle 0 publishes 3 and
cycle 1 publishes 8. -/
theorem counter_ledger_accumulates_witness :
    CounterRecord.mk "gorets" (8 : Int) ∈
      countersAt (runFlushes false []
        [(1, ⟨[("gorets", 3)], [], []⟩), (2, ⟨[("gorets", 5)], [], []⟩)]) 1 := by
  have := counter_ledger_accumulates "gorets"
    [(1, ⟨[("gorets", 3)], [], []⟩), (2, ⟨[("gorets", 5)], [], []⟩)]
    [3, 5] [] (by decide) rfl
    (by intro c hc; fin_cases hc <;> decide)
    (by intro p hp; fin_cases hp <;> decide)
    rfl 1 (by decide)
  have hs : CounterRecord.mk (sanitize_name "gorets")
      ((([3, 5] : List Int).take 2).sum) = CounterRecord.mk "gorets" (8 : Int) := by
    decide
  rwa [hs] at this

/-! ## C3: pruning of unreported counters, fresh restart -/

/-- C3: a counter key present in cycle i but absent from the snapshot of
cycle i+1 is gone from the ledger once the cycle i+1 flush completes; it
stays gone over further cycles that do not report it, and a cycle where it
reappears publishes exactly the fresh delta, not the old accumulation. -/
theorem pruned_counter_restarts (k : Name) (ts1 ts2 : Nat)
    (m1 m2 : Snapshot) (led : Ledger) (d : Int)
    (hk : k ≠ "numStats") (hts : ts1 ≠ ts2)
    (hnodup : (led.map Prod.fst).Nodup)
    (hnd1 : (m1.counters.map Prod.fst).Nodup)
    (hmem : (k, d) ∈ m1.counters)
    (habs : k ∉ m2.counters.map Prod.fst) :
    ledgerLookup (flush_stats false ts2 m2
        (flush_stats false ts1 m1 led).ledger).ledger k = none ∧
    (∀ (ts' : Nat) (m' : Snapshot) (led' : Ledger),
      ledgerLookup led' k = none → k ∉ m'.counters.map Prod.fst →
      ledgerLookup (flush_stats false ts' m' led').ledger k = none) ∧
    (∀ (ts' : Nat) (m' : Snapshot) (led' : Ledger) (d' : Int),
      ledgerLookup led' k = none → (m'.counters.map Prod.fst).Nodup →
      (k, d') ∈ m'.counters →
      CounterRecord.mk (sanitize_name k) d' ∈
        (flush_stats false ts' m' led').counters) := by
  refine ⟨?_, ?_, ?_⟩
  · have h1 := flush_stats_counter_mem ts1 m1 led k d hk hnd1 hmem
    exact flush_stats_absent_stale ts2 m2 _ k ⟨ledgerValue led k + d, ts1⟩ hk
      (flush_stats_nodupKeys ts1 m1 led hnodup) habs h1.1 hts
  · intro ts' m' led' h0 habs'
    exact flush_stats_absent_none ts' m' led' k hk habs' h0
  · intro ts' m' led' d' h0 hnd' hmem'
    have h := (flush_stats_counter_mem ts' m' led' k d' hk hnd' hmem').2
    rwa [show ledgerValue led' k = 0 by simp [ledgerValue, h0], zero_add] at h

/-- C3 witness: gorets accumulates 5 at ts 1, is absent at ts 2, and its
ledger entry is gone after the second flush. -/
theorem pruned_counter_restarts_witness :
    ledgerLookup (flush_stats false 2 ⟨[], [], []⟩
        (flush_stats false 1 ⟨[("gorets", 5)], [], []⟩ []).ledger).ledger
      "gorets" = none :=
  (pruned_counter_restarts "gorets" 1 2 ⟨[("gorets", 5)], [], []⟩
    ⟨[], [], []⟩ [] 5 (by decide) (by decide) (by decide) (by decide)
    (by decide) (by decide)).1

/-! ## C5: legacy counters mode -/

theorem countersLoop_legacy_counters (ts : Nat) (cs : List (Name × Int))
    (led : Ledger) : (countersLoop true ts cs led).2.1 = [] := by
  induction cs generalizing led with
  | nil => rfl
  | cons p rest ih =>
    obtain ⟨k', d'⟩ := p
    simpa [countersLoop] using ih led

theorem countersLoop_legacy_gauge_mem (ts : Nat) (cs : List (Name × Int))
    (led : Ledger) (k : Name) (d : Int) (h : (k, d) ∈ cs) :
    GaugeRecord.plain (sanitize_name k) d ∈ (countersLoop true ts cs led).1 := by
  induction cs generalizing led with
  | nil => cases h
  | cons p rest ih =>
    obtain ⟨k', d'⟩ := p
    simp only [countersLoop, if_pos]
    rcases List.mem_cons.mp h with heq | hm
    · have hk : k = k' := congrArg Prod.fst heq
      have hd : d = d' := congrArg Prod.snd heq
      subst hk; subst hd
      exact List.mem_cons_self _ _
    · exact List.mem_cons_of_mem _ (ih led hm)

/-- C5 counterexample: in legacy mode the flush of a single counter
gorets with delta 7 emits no counter record at all; the raw delta appears
in the gauges array instead. -/
theorem legacy_emits_gauge_not_counter :
    (flush_stats true 1 ⟨[("gorets", 7)], [], []⟩ []).counters = [] ∧
    GaugeRecord.plain "gorets" 7 ∈
      (flush_stats true 1 ⟨[("gorets", 7)], [], []⟩ []).gauges := by
  decide

/-- C5 amended: in legacy mode every counter key bypasses the ledger (the
flush leaves the ledger independent of the counters, applying only the
prune step) and a record carrying the raw per-cycle delta is emitted
directly — but into the gauges array, as a gauge, not as a counter
record; the counters array of a legacy flush is empty. -/
theorem legacy_counter_raw_delta (ts : Nat) (m : Snapshot) (led : Ledger)
    (k : Name) (d : Int) (hmem : (k, d) ∈ m.counters) :
    GaugeRecord.plain (sanitize_name k) d ∈ (flush_stats true ts m led).gauges ∧
    (flush_stats true ts m led).counters = [] ∧
    (flush_stats true ts m led).ledger = pruneLedger ts led := by
  refine ⟨?_, ?_, ?_⟩
  · simp only [flush_stats, if_pos]
    exact List.mem_append_left _ (List.mem_append_left _
      (List.mem_append_left _ (countersLoop_legacy_gauge_mem ts m.counters led k d hmem)))
  · simp only [flush_stats, if_pos]
    exact countersLoop_legacy_counters ts m.counters led
  · simp only [flush_stats, if_pos]
    rw [countersLoop_legacy_ledger ts m.counters led]

/-- C5 witness: the amended statement at the counterexample input. -/
theorem legacy_counter_raw_delta_witness :
    GaugeRecord.plain (sanitize_name "gorets") 7 ∈
      (flush_stats true 1 ⟨[("gorets", 7)], [], []⟩ []).gauges :=
  (legacy_counter_raw_delta 1 ⟨[("gorets", 7)], [], []⟩ [] "gorets" 7
    (by decide)).1

/-! ## C6: the synthetic numStats counter -/

theorem countersLoop_gauges_length (legacy : Bool) (ts : Nat)
    (cs : List (Name × Int)) (led : Ledger) :
    (countersLoop legacy ts cs led).1.length
      = if legacy then cs.length else 0 := by
  induction cs generalizing led with
  | nil => cases legacy <;> rfl
  | cons p rest ih =>
    obtain ⟨k', d'⟩ := p
    cases legacy <;> simp [countersLoop, ih]

theorem countersLoop_counters_length (legacy : Bool) (ts : Nat)
    (cs : List (Name × Int)) (led : Ledger) :
    (countersLoop legacy ts cs led).2.1.length
      = if legacy then 0 else cs.length := by
  induction cs generalizing led with
  | nil => cases legacy <;> rfl
  | cons p rest ih =>
    obtain ⟨k', d'⟩ := p
    cases legacy <;> simp [countersLoop, ih]

theorem timersLoop_length (tl : List (Name × List Int)) :
    (timersLoop tl).length
      = (tl.filter (fun p => !p.2.isEmpty)).length := by
  induction tl with
  | nil => rfl
  | cons p rest ih =>
    obtain ⟨k, samples⟩ := p
    cases samples with
    | nil => simpa [timersLoop, timerRecord, List.filter_cons] using ih
    | cons a s' => simpa [timersLoop, timerRecord, List.filter_cons] using ih

/-- C6: in both modes the synthetic numStats counter contributes exactly
the number of gauge records plus the number of counter records assembled
before numStats itself is appended, and it is published through the same
path as any other counter: in legacy mode as one final raw-valued gauge,
in non-legacy mode as one final counter record whose value accumulates in
the ledger entry stamped with this ts. -/
theorem num_stats_published (ts : Nat) (m : Snapshot) (led : Ledger)
    (h : "numStats" ∉ m.counters.map Prod.fst) :
    (flush_stats true ts m led).gauges.getLast?
        = some (GaugeRecord.plain "numStats" (snapshotRecordCount m)) ∧
    (flush_stats false ts m led).counters.getLast?
        = some (CounterRecord.mk "numStats"
            (ledgerValue led "numStats" + snapshotRecordCount m)) ∧
    ledgerLookup (flush_stats false ts m led).ledger "numStats"
        = some ⟨ledgerValue led "numStats" + snapshotRecordCount m, ts⟩ := by
  have hn : ∀ legacy : Bool,
      (((countersLoop legacy ts m.counters led).1 ++ timersLoop m.timers
          ++ gaugesLoop m.gauges).length : Int)
        + (((countersLoop legacy ts m.counters led).2.1).length : Int)
      = snapshotRecordCount m := by
    intro legacy
    cases legacy <;>
      · simp only [List.length_append, countersLoop_gauges_length,
          countersLoop_counters_length, timersLoop_length, gaugesLoop,
          List.length_map, snapshotRecordCount, if_pos, if_neg,
          Bool.false_eq_true, not_false_iff]
        push_cast
        ring
  have hlook : ledgerLookup (countersLoop false ts m.counters led).2.2
      "numStats" = ledgerLookup led "numStats" :=
    countersLoop_ledger_not_mem ts m.counters led "numStats" h
  have hne : (match ledgerLookup (countersLoop false ts m.counters led).2.2
        "numStats" with
      | none => (⟨(((countersLoop false ts m.counters led).1
            ++ timersLoop m.timers ++ gaugesLoop m.gauges).length : Int)
          + (((countersLoop false ts m.counters led).2.1).length : Int), ts⟩
          : LedgerEntry)
      | some old => ⟨old.value + ((((countersLoop false ts m.counters led).1
            ++ timersLoop m.timers ++ gaugesLoop m.gauges).length : Int)
          + (((countersLoop false ts m.counters led).2.1).length : Int)), ts⟩)
      = ⟨ledgerValue led "numStats" + snapshotRecordCount m, ts⟩ := by
    rw [hlook]
    cases hl : ledgerLookup led "numStats" with
    | none =>
      simp only [ledgerValue, hl, Option.map_none', Option.getD_none, zero_add]
      rw [← hn false]
    | some old =>
      simp only [ledgerValue, hl, Option.map_some', Option.getD_some]
      rw [← hn false]
  refine ⟨?_, ?_, ?_⟩
  · simp only [flush_stats, if_pos, List.getLast?_concat]
    rw [show ((((countersLoop true ts m.counters led).1 ++ timersLoop m.timers
        ++ gaugesLoop m.gauges).length : Int)
        + (((countersLoop true ts m.counters led).2.1).length : Int))
      = snapshotRecordCount m from hn true]
  · simp only [flush_stats, Bool.false_eq_true, if_neg, not_false_iff,
      List.getLast?_concat, hne]
  · simp only [flush_stats, Bool.false_eq_true, if_neg, not_false_iff, hne]
    exact ledgerLookup_prune_of_eq ts _ "numStats" _
      (by rw [ledgerLookup_set_self]) rfl

/-- C6 witness: one counter, one nonempty and one empty timer, one gauge:
numStats is published as 3 in legacy mode and 3 in non-legacy mode. -/
theorem num_stats_published_witness :
    (flush_stats true 7 ⟨[("a", 2)], [("t", [1, 2]), ("e", [])], [("g", 9)]⟩
        []).gauges.getLast? = some (GaugeRecord.plain "numStats" 3) ∧
    (flush_stats false 7 ⟨[("a", 2)], [("t", [1, 2]), ("e", [])], [("g", 9)]⟩
        []).counters.getLast? = some (CounterRecord.mk "numStats" 3) := by
  have h := num_stats_published 7
    ⟨[("a", 2)], [("t", [1, 2]), ("e", [])], [("g", 9)]⟩ [] (by decide)
  refine ⟨?_, ?_⟩
  · have h1 := h.1
    rwa [show snapshotRecordCount
        ⟨[("a", 2)], [("t", [1, 2]), ("e", [])], [("g", 9)]⟩ = 3 by decide] at h1
  · have h2 := h.2.1
    rwa [show ledgerValue [] "numStats" + snapshotRecordCount
        ⟨[("a", 2)], [("t", [1, 2]), ("e", [])], [("g", 9)]⟩ = 3 by decide] at h2

/-! ## C8: timer aggregation -/

theorem timerFold_acc (l : List Int) :
    ∀ mn mx s q : Int,
      l.foldl timerStep ⟨some mn, some mx, s, q⟩ =
        ⟨some (l.foldl min mn), some (l.foldl max mx),
          s + l.sum, q + (l.map (fun x => x * x)).sum⟩ := by
  induction l with
  | nil => intro mn mx s q; simp
  | cons v rest ih =>
    intro mn mx s q
    have hmin : (if v < mn then v else mn) = min mn v := by
      split_ifs with hv
      · exact (min_eq_right hv.le).symm
      · exact (min_eq_left (not_lt.mp hv)).symm
    have hmax : (if v > mx then v else mx) = max mx v := by
      split_ifs with hv
      · exact (max_eq_right hv.le).symm
      · exact (max_eq_left (not_lt.mp hv)).symm
    have hstep : timerStep ⟨some mn, some mx, s, q⟩ v
        = ⟨some (min mn v), some (max mx v), s + v, q + v * v⟩ := by
      simp only [timerStep]
      rw [← apply_ite some, ← apply_ite some, hmin, hmax]
    rw [List.foldl_cons, hstep, ih]
    simp only [List.foldl_cons, List.sum_cons, List.map_cons,
      TimerAcc.mk.injEq, true_and]
    constructor <;> ring

theorem foldl_min_spec (l : List Int) :
    ∀ m : Int, (l.foldl min m = m ∨ l.foldl min m ∈ l) ∧
      l.foldl min m ≤ m ∧ ∀ x ∈ l, l.foldl min m ≤ x := by
  induction l with
  | nil =>
    intro m
    exact ⟨Or.inl rfl, le_refl m, by intro x hx; cases hx⟩
  | cons v rest ih =>
    intro m
    obtain ⟨hmem, hle, hall⟩ := ih (min m v)
    refine ⟨?_, ?_, ?_⟩
    · rw [List.foldl_cons]
      rcases hmem with he | hm
      · rcases min_choice m v with h | h
        · exact Or.inl (he.trans h)
        · exact Or.inr (by rw [he, h]; exact List.mem_cons_self _ _)
      · exact Or.inr (List.mem_cons_of_mem _ hm)
    · rw [List.foldl_cons]
      exact hle.trans (min_le_left _ _)
    · intro x hx
      rw [List.foldl_cons]
      rcases List.mem_cons.mp hx with rfl | hx'
      · exact hle.trans (min_le_right _ _)
      · exact hall x hx'

theorem foldl_max_spec (l : List Int) :
    ∀ m : Int, (l.foldl max m = m ∨ l.foldl max m ∈ l) ∧
      m ≤ l.foldl max m ∧ ∀ x ∈ l, x ≤ l.foldl max m := by
  induction l with
  | nil =>
    intro m
    exact ⟨Or.inl rfl, le_refl m, by intro x hx; cases hx⟩
  | cons v rest ih =>
    intro m
    obtain ⟨hmem, hle, hall⟩ := ih (max m v)
    refine ⟨?_, ?_, ?_⟩
    · rw [List.foldl_cons]
      rcases hmem with he | hm
      · rcases max_choice m v with h | h
        · exact Or.inl (he.trans h)
        · exact Or.inr (by rw [he, h]; exact List.mem_cons_self _ _)
      · exact Or.inr (List.mem_cons_of_mem _ hm)
    · rw [List.foldl_cons]
      exact (le_max_left _ _).trans hle
    · intro x hx
      rw [List.foldl_cons]
      rcases List.mem_cons.mp hx with rfl | hx'
      · exact (le_max_right _ _).trans hle
      · exact hall x hx'

/-- C8: a timer key with an empty sample list produces no record, and a
timer key with samples a :: rest produces the record with count the
number of samples, sum their total, sum of squares the total of their
squares, and the minimum and maximum of the samples. -/
theorem timer_moments (k : Name) (a : Int) (rest : List Int) :
    timerRecord k [] = none ∧
    timerRecord k (a :: rest) = some (GaugeRecord.timer (sanitize_name k)
      (a :: rest).length ((a :: rest).sum)
      (((a :: rest).map (fun x => x * x)).sum)
      (rest.foldl min a) (rest.foldl max a)) ∧
    rest.foldl min a ∈ a :: rest ∧
    (∀ x ∈ a :: rest, rest.foldl min a ≤ x) ∧
    rest.foldl max a ∈ a :: rest ∧
    (∀ x ∈ a :: rest, x ≤ rest.foldl max a) := by
  have hrec : timerRecord k (a :: rest) = some (GaugeRecord.timer
      (sanitize_name k) (a :: rest).length ((a :: rest).sum)
      (((a :: rest).map (fun x => x * x)).sum)
      (rest.foldl min a) (rest.foldl max a)) := by
    have hacc : (a :: rest).foldl timerStep ⟨none, none, 0, 0⟩ =
        ⟨some (rest.foldl min a), some (rest.foldl max a),
          (a :: rest).sum, ((a :: rest).map (fun x => x * x)).sum⟩ := by
      rw [List.foldl_cons]
      show rest.foldl timerStep ⟨some a, some a, 0 + a, 0 + a * a⟩ = _
      rw [timerFold_acc]
      simp only [List.sum_cons, List.map_cons, TimerAcc.mk.injEq, true_and]
      constructor <;> ring
    simp [timerRecord, hacc]
  have hmin := foldl_min_spec rest a
  have hmax := foldl_max_spec rest a
  refine ⟨rfl, hrec, ?_, ?_, ?_, ?_⟩
  · rcases hmin.1 with he | hm
    · rw [he]; exact List.mem_cons_self _ _
    · exact List.mem_cons_of_mem _ hm
  · intro x hx
    rcases List.mem_cons.mp hx with rfl | hx'
    · exact hmin.2.1
    · exact hmin.2.2 x hx'
  · rcases hmax.1 with he | hm
    · rw [he]; exact List.mem_cons_self _ _
    · exact List.mem_cons_of_mem _ hm
  · intro x hx
    rcases List.mem_cons.mp hx with rfl | hx'
    · exact hmax.2.1
    · exact hmax.2.2 x hx'

/-- C8 witness: the spec example, samples [1,2,3,4] give count 4, sum 10,
sum of squares 30, min 1, max 4. -/
theorem timer_moments_witness :
    timerRecord "glork" [1, 2, 3, 4]
      = some (GaugeRecord.timer "glork" 4 10 30 1 4) := by
  have h := (timer_moments "glork" 1 [2, 3, 4]).2.1
  rwa [show (GaugeRecord.timer (sanitize_name "glork")
      ([1, 2, 3, 4] : List Int).length (([1, 2, 3, 4] : List Int).sum)
      ((([1, 2, 3, 4] : List Int).map (fun x => x * x)).sum)
      (([2, 3, 4] : List Int).foldl min 1)
      (([2, 3, 4] : List Int).foldl max 1))
    = GaugeRecord.timer "glork" 4 10 30 1 4 by decide] at h

/-! ## DeliveryClient: post_payload and post_metrics -/

theorem handle_response_final (debug : Bool) (r : Response) :
    (∀ e ∈ handle_response debug r false, e = .logCrit ∨ e = .logDebug) ∧
    schedules_retry r false = false := by
  constructor
  · intro e he
    cases r with
    | status code hasData =>
      by_cases h1 : (code / 100 == 5 && hasData) = true
      · simp [handle_response, h1] at he
        exact Or.inl he
      · by_cases h2 : (code / 100 == 4 && hasData && debug) = true
        · simp [handle_response, h1, h2] at he
          exact Or.inr he
        · simp [handle_response, h1, h2] at he
    | transportError =>
      simp [handle_response] at he
      exact Or.inl he
  · simp [schedules_retry]

/-- C1: the code never performs the documented retry.  Both call sites of
post_payload pass retry = false, so every delivery consists of exactly
one attempt, no retry is ever scheduled, and a 5xx on that single first
attempt is logged critical and dropped on the spot. -/
theorem first_attempt_never_retried (debug : Bool) (now : Nat)
    (responses : Nat → Response) (fuel : Nat) (st : PostState)
    (hfuel : 1 ≤ fuel) :
    ((post_metrics_send debug now responses fuel st).1.count .attempt = 1) ∧
    (∀ d, DeliveryEvent.scheduleRetry d ∉
        (post_metrics_send debug now responses fuel st).1) ∧
    ((post_metrics_send false now (fun _ => .status 503 true) fuel st).1
        = [.attempt, .logCrit]) := by
  obtain ⟨f, rfl⟩ : ∃ f, fuel = f + 1 :=
    ⟨fuel - 1, (Nat.succ_pred_eq_of_pos hfuel).symm⟩
  have hfin := handle_response_final debug (responses 0)
  have hev : (post_metrics_send debug now responses (f + 1) st).1
      = .attempt :: (handle_response debug (responses 0) false ++ []) := by
    simp only [post_metrics_send, post_payload_run, hfin.2, Bool.false_eq_true,
      if_neg, not_false_iff]
  refine ⟨?_, ?_, ?_⟩
  · rw [hev]
    have hz : (handle_response debug (responses 0) false).count .attempt = 0 := by
      rw [List.count_eq_zero]
      intro hmem
      rcases hfin.1 _ hmem with h | h <;> cases h
    simp [List.count_cons, hz]
  · intro d
    rw [hev]
    simp only [List.append_nil, List.mem_cons]
    rintro (h | h)
    · cases h
    · rcases hfin.1 _ h with h' | h' <;> cases h'
  · have h503 := handle_response_final false ((fun _ => Response.status 503 true) 0)
    simp only [post_metrics_send, post_payload_run, h503.2, Bool.false_eq_true,
      if_neg, not_false_iff]
    rfl

/-- C1 witness: a 503 on the first attempt with fuel for two calls still
produces a single attempt followed by a critical log, and nothing
scheduled. -/
theorem first_attempt_never_retried_witness :
    (post_metrics_send false 0 (fun _ => .status 503 true) 2 ⟨none⟩).1
      = [.attempt, .logCrit] :=
  (first_attempt_never_retried false 0 (fun _ => .status 503 true) 2 ⟨none⟩
    (by decide)).2.2

/-! ## C4: last_flush -/

/-- C4 counterexample: a delivery that fails outright (HTTP 503 on its
only attempt, logged critical) still overwrites last_flush — the source
stamps it unconditionally right after writing the request — so a failed
flush does not leave the previously recorded value unchanged. -/
theorem last_flush_stamped_despite_failure :
    ((post_metrics_send false 200 (fun _ => .status 503 true) 1
        ⟨some 100⟩).2.lastFlush = some 200) ∧
    some (200 : Nat) ≠ some (100 : Nat) ∧
    DeliveryEvent.logCrit ∈
      (post_metrics_send false 200 (fun _ => .status 503 true) 1
        ⟨some 100⟩).1 := by
  decide

/-- C4 amended: last_flush is stamped with the current wall clock on
every delivery, unconditionally, whatever the outcome of the attempt. -/
theorem last_flush_every_delivery (debug : Bool) (now : Nat)
    (responses : Nat → Response) (fuel : Nat) (st : PostState)
    (hfuel : 1 ≤ fuel) :
    (post_metrics_send debug now responses fuel st).2.lastFlush = some now := by
  obtain ⟨f, rfl⟩ : ∃ f, fuel = f + 1 :=
    ⟨fuel - 1, (Nat.succ_pred_eq_of_pos hfuel).symm⟩
  simp only [post_metrics_send, post_payload_run,
    (handle_response_final debug (responses 0)).2, Bool.false_eq_true,
    if_neg, not_false_iff]

/-- C4 witness: the amended statement at the counterexample input. -/
theorem last_flush_every_delivery_witness :
    (post_metrics_send false 200 (fun _ => .status 503 true) 1
      ⟨some 100⟩).2.lastFlush = some 200 :=
  last_flush_every_delivery false 200 (fun _ => .status 503 true) 1
    ⟨some 100⟩ (by decide)

/-! ## C10: port defaulting ignores the scheme -/

/-- C10: for every endpoint URL with no explicit port the POST goes to
port 443, whatever the scheme; in particular an http:// endpoint without
a port is paired with the plaintext transport on port 443, not port 80. -/
theorem port_defaults_to_443 (api : String)
    (hne : api ≠ "") (hport : (url_parse api).port = none) :
    (post_metrics_target (some api)).1.port = 443 ∧
    ((url_parse api).protocol = some "http:" →
      (post_metrics_target (some api)).2 = Proto.http) := by
  have hres : jsStringOr (some api) "https://metrics-api.librato.com" = api := by
    simp [jsStringOr, hne]
  constructor
  · simp only [post_metrics_target, hres, hport, Option.getD_none]
  · intro hp
    simp only [post_metrics_target, hres, hp]
    rw [show jsStringOr (some "http:") "http:" = "http:" from rfl]
    decide

/-- C10 witness: http://example.com has no explicit port; the delivery
target is port 443 over the plaintext transport. -/
theorem port_defaults_to_443_witness :
    (post_metrics_target (some "http://example.com")).1.port = 443 ∧
    (post_metrics_target (some "http://example.com")).2 = Proto.http := by
  have h := port_defaults_to_443 "http://example.com" (by decide) (by decide)
  exact ⟨h.1, h.2 (by decide)⟩

/-! ## BackendFacade: init_librato -/

theorem init_resolved_email (config : Config) (st : ModuleState)
    (startup_time : Nat) :
    (init_librato startup_time config st).2.email = resolvedEmail config ∧
    (init_librato startup_time config st).2.token = resolvedToken config := by
  cases hb : config.librato <;>
    · simp only [init_librato, resolvedEmail, resolvedToken, hb]
      split_ifs <;> exact ⟨rfl, rfl⟩

/-- C9: when the resolved email or token (nested provider block taking
precedence over the deprecated flat keys) is missing or empty, init
returns false and configures nothing further — basicAuthHeader and
flushInterval keep their previous values; when both are present, init
returns true and builds the basic-auth delivery credential.  The
embedding of init is a pure function: it raises nothing and touches no
network. -/
theorem init_credentials_gate (startup_time : Nat) (config : Config)
    (st : ModuleState) :
    ((jsTruthyStr (resolvedEmail config) = false ∨
        jsTruthyStr (resolvedToken config) = false) →
      (init_librato startup_time config st).1 = false ∧
      (init_librato startup_time config st).2.basicAuthHeader
        = st.basicAuthHeader ∧
      (init_librato startup_time config st).2.flushInterval
        = st.flushInterval) ∧
    (jsTruthyStr (resolvedEmail config) = true →
      jsTruthyStr (resolvedToken config) = true →
      (init_librato startup_time config st).1 = true ∧
      (init_librato startup_time config st).2.basicAuthHeader
        = some (build_basic_auth ((resolvedEmail config).getD "")
            ((resolvedToken config).getD ""))) := by
  constructor
  · intro h
    cases hb : config.librato <;>
      · simp only [init_librato, resolvedEmail, resolvedToken, hb] at h ⊢
        have hcond : (!jsTruthyStr (match config.librato with
            | some b => b.email
            | none => config.libratoUser) : Bool) = true ∨
            (!jsTruthyStr (match config.librato with
            | some b => b.token
            | none => config.libratoApiKey) : Bool) = true := by
          rw [hb]
          rcases h with h | h <;> simp [h]
        rw [hb] at hcond
        rcases hcond with hc | hc <;> simp [hc]
  · intro he ht
    cases hb : config.librato <;>
      · simp only [init_librato, resolvedEmail, resolvedToken, hb] at he ht ⊢
        simp [he, ht]

/-- C9 witness: a nested block with an email but no token makes init
return false and leave basicAuthHeader and flushInterval untouched; with
both credentials init returns true. -/
theorem init_credentials_gate_witness :
    ((init_librato 0
        ⟨false, some ⟨none, some "a@b.c", none, none, none⟩,
          none, none, none, none, some 10⟩
        ⟨false, none, none, none, none, false, some 99, some "old"⟩).1
      = false ∧
     (init_librato 0
        ⟨false, some ⟨none, some "a@b.c", none, none, none⟩,
          none, none, none, none, some 10⟩
        ⟨false, none, none, none, none, false, some 99, some "old"⟩).2.basicAuthHeader
      = some "old" ∧
     (init_librato 0
        ⟨false, some ⟨none, some "a@b.c", none, none, none⟩,
          none, none, none, none, some 10⟩
        ⟨false, none, none, none, none, false, some 99, some "old"⟩).2.flushInterval
      = some 99) ∧
    (init_librato 0
        ⟨false, some ⟨none, some "a@b.c", some "tok", none, none⟩,
          none, none, none, none, some 10⟩
        ⟨false, none, none, none, none, false, none, none⟩).1 = true := by
  constructor
  · exact (init_credentials_gate 0
      ⟨false, some ⟨none, some "a@b.c", none, none, none⟩,
        none, none, none, none, some 10⟩
      ⟨false, none, none, none, none, false, some 99, some "old"⟩).1
      (by decide)
  · exact ((init_credentials_gate 0
      ⟨false, some ⟨none, some "a@b.c", some "tok", none, none⟩,
        none, none, none, none, some 10⟩
      ⟨false, none, none, none, none, false, none, none⟩).2
      (by decide) (by decide)).1

end Librato
